import Mathlib

/-!
Shallow embedding of the `fix_price_parser` repository
(`fix_price_parser/spiders/fix_price_spider.py`,
`fix_price_parser/spiders/available_cities_spider.py`, `fix_price_parser/items.py`).

JSON payloads are modelled by the inductive `JValue`; JSON objects are ordered
association lists (`JObj`).  Python numbers (ints and floats alike) are modelled
as exact rationals `ℚ`.  A Python expression that can raise an exception
(`KeyError`, `IndexError`, `TypeError`, `ZeroDivisionError`) is modelled in the
`Option` monad: `none` is a raised exception, which for spider callbacks means
the item is dropped rather than emitted.
-/

namespace FixPriceParser

/-- Model of a JSON value as delivered by the FixPrice API. -/
inductive JValue where
  | null : JValue
  | bool : Bool → JValue
  | num : ℚ → JValue
  | str : String → JValue
  | arr : List JValue → JValue
  | obj : List (String × JValue) → JValue

/-- A JSON object: an ordered association list of fields (Python `dict`). -/
abbrev JObj := List (String × JValue)

/-- Python `d[k]` / `d.get(k)` lookup on a JSON object: the first binding of
the key, if any.  (`d[k]` raising `KeyError` is the `none` case.) -/
def pyGet (o : JObj) (k : String) : Option JValue :=
  (o.find? (fun kv => kv.1 == k)).map (fun kv => kv.2)

/-- Python truthiness of a JSON value: `None`, `False`, `0`, `""`, `[]`, `{}`
are falsy, everything else is truthy. -/
def jTruthy : JValue → Bool
  | JValue.null => false
  | JValue.bool b => b
  | JValue.num q => q != 0
  | JValue.str s => s != ""
  | JValue.arr xs => !xs.isEmpty
  | JValue.obj fs => !fs.isEmpty

/-- Truthiness of the result of a `d.get(k)` lookup (`None` when absent). -/
def jTruthyOpt : Option JValue → Bool
  | some v => jTruthy v
  | none => false

/-- View a JSON value as an object; any other shape is a `TypeError`. -/
def jAsObj : JValue → Option JObj
  | JValue.obj fs => some fs
  | _ => none

/-- View a JSON value as an array; any other shape is a `TypeError`. -/
def jAsArr : JValue → Option (List JValue)
  | JValue.arr xs => some xs
  | _ => none

/-- View a JSON value as a string. -/
def jAsStr : JValue → Option String
  | JValue.str s => some s
  | _ => none

/-- Python `float(x)` on a JSON numeric value (numbers and booleans; the API
delivers prices and counts as JSON numbers).  Any other shape fails. -/
def pyFloat : JValue → Option ℚ
  | JValue.num q => some q
  | JValue.bool b => some (if b then 1 else 0)
  | _ => none

/-- Python `str.split(sep)` for a one-character separator, on the character
list of the string: splitting never drops a segment, and a string with `n`
separators yields `n + 1` (possibly empty) segments. -/
def splitOnChar (sep : Char) : List Char → List (List Char)
  | [] => [[]]
  | c :: rest =>
    if c = sep then
      [] :: splitOnChar sep rest
    else
      match splitOnChar sep rest with
      | [] => [[c]]
      | g :: gs => (c :: g) :: gs

/-- Python `str.split(sep)` on a string, for a one-character separator. -/
def strSplit (sep : Char) (s : String) : List String :=
  (splitOnChar sep s.data).map (fun g => String.mk g)

/-! ## Category tree (`categories_json` and `build_category_hierarchy`) -/

/-- A node of the category menu returned by the category-menu endpoint:
a JSON object with fields `alias`, `title` and `items` (the children). -/
inductive CategoryNode where
  | mk : String → String → List CategoryNode → CategoryNode

/-- The node's `alias` field (the slug segment it matches). -/
def CategoryNode.alias : CategoryNode → String
  | CategoryNode.mk a _ _ => a

/-- The node's `title` field (the display name). -/
def CategoryNode.title : CategoryNode → String
  | CategoryNode.mk _ t _ => t

/-- The node's `items` field (the ordered list of children). -/
def CategoryNode.items : CategoryNode → List CategoryNode
  | CategoryNode.mk _ _ i => i

/-- The nested loop of `FixPriceSpider.build_category_hierarchy`: walk the
forest level by level over the already-split slug segments.  A segment whose
alias matches a sibling at the current level appends that node's title and
descends into its children (the inner `for` + `break`); a segment with no
match at the current level is skipped and the level is left unchanged. -/
def hierWalk : List CategoryNode → List String → List String
  | _, [] => []
  | cats, seg :: rest =>
    match cats.find? (fun c => c.alias == seg) with
    | some c => c.title :: hierWalk c.items rest
    | none => hierWalk cats rest

/-- The number of segments that find a match during the walk of `hierWalk`. -/
def hierMatchedCount : List CategoryNode → List String → Nat
  | _, [] => 0
  | cats, seg :: rest =>
    match cats.find? (fun c => c.alias == seg) with
    | some c => hierMatchedCount c.items rest + 1
    | none => hierMatchedCount cats rest

/-- `FixPriceSpider.build_category_hierarchy`: split the base category slug on
`"/"` and walk the loaded category forest. -/
def buildCategoryHierarchy (categoriesJson : List CategoryNode) (baseCategorySlug : String) :
    List String :=
  hierWalk categoriesJson (strSplit '/' baseCategorySlug)

/-! ## Page counter (`get_pages_amount`) -/

/-- `self.MAX_LIMIT_VALUE`: the fixed page size. -/
def MAX_LIMIT_VALUE : ℕ := 99

/-- `math.ceil(int(response.headers["x-count"]) / self.MAX_LIMIT_VALUE)`. -/
def pagesAmount (xCount : ℕ) : ℕ :=
  ⌈(xCount : ℚ) / (MAX_LIMIT_VALUE : ℚ)⌉₊

/-- One follow-up page request produced by `get_pages_amount`: the page number
substituted into the URL and the category slug carried in `meta`. -/
structure PageRequest where
  pageNumber : ℕ
  categorySlug : String
deriving DecidableEq

/-- The requests yielded by `FixPriceSpider.get_pages_amount`: one per
`page_number in range(1, pages_amount + 1)`, each carrying the original
category slug from `response.meta`. -/
def getPagesAmountRequests (xCount : ℕ) (categorySlug : String) : List PageRequest :=
  (List.range (pagesAmount xCount)).map (fun i => ⟨i + 1, categorySlug⟩)

/-! ## Output record schema (`items.py`) -/

/-- `PriceItem` of `items.py`.  Prices are exact rationals.  The source's
`sale_tag` is the string `"Скидка {p}%"` with the discount percentage `p`
interpolated; we record the interpolated percentage (`none` models the
Python `None`). -/
structure PriceItem where
  current : ℚ
  original : ℚ
  saleTag : Option ℚ

/-- `StockItem` of `items.py`. -/
structure StockItem where
  inStock : Bool
  count : ℚ

/-- `AssetsItem` of `items.py`.  URL fields hold the payload values
verbatim. -/
structure AssetsItem where
  mainImage : Option JValue
  setImages : Option (List JValue)
  view360 : Option JValue
  video : JValue

/-- `MetadataItem` of `items.py`: the mandatory `description` (stored by the
source under the reserved field `_description`) plus the ordered dynamic
key/value assignments made through `metadata_item[k] = v`. -/
structure MetadataItem where
  description : JValue
  extra : List (String × JValue)

/-- `FixPriceParserItem` of `items.py`.  The source's `section` field is
`sectionTitles` here (`section` is reserved in Lean); `urlFragment` is the
payload's `url` field that the source interpolates into `BASE_ITEM_URL`. -/
structure FixPriceParserItem where
  timestamp : Int
  RPC : JValue
  urlFragment : JValue
  title : JValue
  marketingTags : List String
  brand : Option JValue
  sectionTitles : List String
  priceData : PriceItem
  stock : StockItem
  assets : AssetsItem
  metadata : MetadataItem
  variants : ℕ

/-! ## Item fetcher/normalizer (`FixPriceSpider.parse`) -/

/-- `item_json["brand"]["title"] if item_json["brand"] else None`:
`KeyError` if `brand` is absent; `None` if it is falsy; otherwise the brand
object's `title` (failing if the brand is not an object or lacks one). -/
def parseBrand (itemJson : JObj) : Option (Option JValue) := do
  let brandVal ← pyGet itemJson "brand"
  if jTruthy brandVal then
    let brandObj ← jAsObj brandVal
    let t ← pyGet brandObj "title"
    pure (some t)
  else
    pure none

/-- `item_json["variants"]`, which the source indexes and iterates as a
list. -/
def getVariantsList (itemJson : JObj) : Option (List JValue) := do
  let v ← pyGet itemJson "variants"
  jAsArr v

/-- Lines 245-254 of the spider: `original` is the first variant's `price`;
if `item_json["specialPrice"]` is truthy, `current` is the special price and
the sale tag's percentage is `(original - current) / original * 100`,
otherwise `current = original` and the sale tag is `None`. -/
def parsePriceItem (itemJson : JObj) (firstVariantObj : JObj) : Option PriceItem := do
  let priceVal ← pyGet firstVariantObj "price"
  let originalPrice ← pyFloat priceVal
  let specialVal ← pyGet itemJson "specialPrice"
  if jTruthy specialVal then
    let specialObj ← jAsObj specialVal
    let spVal ← pyGet specialObj "price"
    let currentPrice ← pyFloat spVal
    pure { current := currentPrice, original := originalPrice,
           saleTag := some ((originalPrice - currentPrice) / originalPrice * 100) }
  else
    pure { current := originalPrice, original := originalPrice, saleTag := none }

/-- `sum(item_variant_json["count"] for item_variant_json in variants)`:
each variant must be an object carrying a numeric `count`. -/
def variantCounts (variantsList : List JValue) : Option (List ℚ) :=
  variantsList.mapM (fun v => do
    let o ← jAsObj v
    let c ← pyGet o "count"
    pyFloat c)

/-- Lines 256-263 of the spider: `count` is the sum of all variants' `count`
fields and `in_stock` is `True` exactly when that sum is positive. -/
def parseStockItem (variantsList : List JValue) : Option StockItem := do
  let counts ← variantCounts variantsList
  pure { inStock := decide (0 < counts.sum), count := counts.sum }

/-- Lines 265-277 of the spider: when `item_json.get("images")` is truthy it
must be an array of objects with `src`; otherwise both image fields are
`None`.  `view_360` is always `None` and `video` is
`item_json["videoLink"]` verbatim (a `KeyError` — `none` here — when the
key is structurally absent). -/
def parseImagesPart (itemJson : JObj) : Option (Option JValue × Option (List JValue)) :=
  match pyGet itemJson "images" with
  | some v =>
    if jTruthy v then do
      let imgs ← jAsArr v
      let first ← imgs.head?
      let firstObj ← jAsObj first
      let mainSrc ← pyGet firstObj "src"
      let srcs ← imgs.mapM (fun im => do
        let io ← jAsObj im
        pyGet io "src")
      pure (some mainSrc, some srcs)
    else
      pure (none, none)
  | none => pure (none, none)

/-- Continuation of `parseAssetsItem` past the images part: `view_360` is
always `None` and `video` is `item_json["videoLink"]` verbatim. -/
def parseAssetsItem (itemJson : JObj) : Option AssetsItem := do
  let imagesPart ← parseImagesPart itemJson
  let video ← pyGet itemJson "videoLink"
  pure { mainImage := imagesPart.1, setImages := imagesPart.2,
         view360 := none, video := video }

/-- The fixed exclusion set of line 282 of the spider. -/
def excludedMetadataKeys : List String :=
  ["id", "image", "title", "properties", "count", "price", "fixPrice"]

/-- Python dict assignment `d[k] = v` on an ordered association list: if
the key is present its binding is replaced in place (the key keeps its
original position), otherwise the new binding is appended.  This is the
semantics of `MetadataItem.__setitem__`, which stores through the
underlying scrapy `Item` dict. -/
def dictSet (o : JObj) (k : String) (v : JValue) : JObj :=
  if o.any (fun kv => kv.1 == k) then
    o.map (fun kv => if kv.1 == k then (k, v) else kv)
  else
    o ++ [(k, v)]

/-- The loop of lines 281-283 of the spider: assign every key/value pair of
the first variant outside the exclusion set, in iteration order, through
dict assignment. -/
def mdAssignments (firstVariantObj : JObj) : JObj :=
  (firstVariantObj.filter (fun kv => !(excludedMetadataKeys.contains kv.1))).foldl
    (fun acc kv => dictSet acc kv.1 kv.2) []

/-- Lines 279-286 of the spider: `description` from the payload; every
key/value pair of the first variant outside the exclusion set assigned in
order; then `country_of_origin` assigned from the first properties entry's
`value` when `item_json.get("properties")` is truthy.  Every assignment is
a dict set: an existing key is overwritten in place. -/
def parseMetadataItem (itemJson : JObj) (firstVariantObj : JObj) : Option MetadataItem := do
  let descriptionVal ← pyGet itemJson "description"
  let fromVariant := mdAssignments firstVariantObj
  let extra ←
    if jTruthyOpt (pyGet itemJson "properties") then do
      let propsVal ← pyGet itemJson "properties"
      let propsArr ← jAsArr propsVal
      let firstProp ← propsArr.head?
      let firstPropObj ← jAsObj firstProp
      let originVal ← pyGet firstPropObj "value"
      pure (dictSet fromVariant "country_of_origin" originVal)
    else
      pure fromVariant
  pure { description := descriptionVal, extra := extra }

/-- `FixPriceSpider.parse`: normalizes one item-detail payload into a
`FixPriceParserItem`.  `timestamp` abstracts the parsed response date
header; `categoriesJson` is the category forest loaded at construction and
`categorySlug` the slug carried in `response.meta`.  `none` models a raised
exception: the item is dropped, nothing is emitted. -/
def parse (categoriesJson : List CategoryNode) (categorySlug : String)
    (timestamp : Int) (itemJson : JObj) : Option FixPriceParserItem := do
  let sku ← pyGet itemJson "sku"
  let urlFragment ← pyGet itemJson "url"
  let titleVal ← pyGet itemJson "title"
  let brand ← parseBrand itemJson
  let variantsList ← getVariantsList itemJson
  let firstVariant ← variantsList.head?
  let firstVariantObj ← jAsObj firstVariant
  let priceData ← parsePriceItem itemJson firstVariantObj
  let stock ← parseStockItem variantsList
  let assets ← parseAssetsItem itemJson
  let metadata ← parseMetadataItem itemJson firstVariantObj
  pure { timestamp := timestamp, RPC := sku, urlFragment := urlFragment,
         title := titleVal, marketingTags := [], brand := brand,
         sectionTitles := buildCategoryHierarchy categoriesJson categorySlug,
         priceData := priceData, stock := stock, assets := assets,
         metadata := metadata, variants := variantsList.length }

/-! ## Spider construction (`FixPriceSpider.__init__`) -/

/-- Line 64 of the spider:
`tuple(filter(None, categories_slugs.split(",")))` — split the single
string argument on commas and keep only the truthy (non-empty)
segments. -/
def categoriesSlugsOfString (s : String) : List String :=
  ((splitOnChar ',' s.data).filter (fun g => !g.isEmpty)).map (fun g => String.mk g)

/-- Join character-list segments with a separator: the inverse of
`splitOnChar`, used to state that splitting loses nothing. -/
def joinWith (sep : Char) : List (List Char) → List Char
  | [] => []
  | [g] => g
  | g :: gs => g ++ sep :: joinWith sep gs

/-- Digit sequence accepted by Python `int(str)` after the optional sign:
non-empty, begins and ends with a digit, only digits and underscores, and
no two consecutive underscores. -/
def pyDigitSeq (cs : List Char) : Bool :=
  !cs.isEmpty &&
  cs.all (fun c => c.isDigit || c == '_') &&
  (match cs.head? with
   | some c => c.isDigit
   | none => false) &&
  (match cs.getLast? with
   | some c => c.isDigit
   | none => false) &&
  noDoubleUnderscore cs
where
  /-- No two consecutive underscores. -/
  noDoubleUnderscore : List Char → Bool
    | '_' :: '_' :: _ => false
    | _ :: rest => noDoubleUnderscore rest
    | [] => true

/-- Value of a digit/underscore sequence in base 10. -/
def digitsValue (cs : List Char) : ℕ :=
  (cs.filter Char.isDigit).foldl (fun acc c => acc * 10 + (c.toNat - 48)) 0

/-- Python `int(s)` on a string: strip surrounding whitespace, accept an
optional sign followed by a digit sequence (underscore separators allowed),
otherwise raise `ValueError` (the `none` case). -/
def pyIntOfString (s : String) : Option Int :=
  let stripped := ((s.data.dropWhile Char.isWhitespace).reverse.dropWhile
    Char.isWhitespace).reverse
  match stripped with
  | '-' :: rest => if pyDigitSeq rest then some (-(digitsValue rest : Int)) else none
  | '+' :: rest => if pyDigitSeq rest then some ((digitsValue rest : Int)) else none
  | cs => if pyDigitSeq cs then some ((digitsValue cs : Int)) else none

/-- The `city_id` argument as it can arrive at `__init__` (Scrapy passes
command-line arguments as strings; direct construction can pass the
annotated `int`). -/
inductive CityArg where
  | ofInt : Int → CityArg
  | ofStr : String → CityArg

/-- A Python value that may appear inside the `categories_slugs` tuple. -/
inductive TupleElem where
  | str : String → TupleElem
  | nonStr : TupleElem

/-- The `categories_slugs` argument: a single string, a tuple, or a value
of any other type. -/
inductive CategoriesArg where
  | ofStr : String → CategoriesArg
  | ofTuple : List TupleElem → CategoriesArg
  | other : CategoriesArg

/-- Lines 56-59 of `__init__`: `int(city_id)`, turning a failed conversion
into `ValueError` (`none`). -/
def parseCityArg : CityArg → Option Int
  | CityArg.ofInt n => some n
  | CityArg.ofStr s => pyIntOfString s

/-- Lines 61-66 of `__init__`: accept a tuple whose elements are all
strings as-is; split a single string on commas keeping non-empty segments;
reject anything else with `ValueError` (`none`). -/
def parseCategoriesArg : CategoriesArg → Option (List String)
  | CategoriesArg.ofTuple xs =>
    if xs.all (fun e => match e with | TupleElem.str _ => true | TupleElem.nonStr => false)
    then some (xs.filterMap (fun e => match e with
      | TupleElem.str s => some s
      | TupleElem.nonStr => none))
    else none
  | CategoriesArg.ofStr s => some (categoriesSlugsOfString s)
  | CategoriesArg.other => none

/-- Observable events of `__init__`, in order: argument validation happens
first (lines 56-66) and the category-menu fetch (line 81) only afterwards. -/
inductive InitEvent where
  | raisedValueError : InitEvent
  | fetchedCategoryMenu : InitEvent
deriving DecidableEq

/-- The event trace of `__init__`: a malformed `city_id` or
`categories_slugs` raises `ValueError` before the category-menu request is
ever issued; on valid arguments the constructor reaches the fetch. -/
def initEvents (city : CityArg) (categories : CategoriesArg) : List InitEvent :=
  match parseCityArg city with
  | none => [InitEvent.raisedValueError]
  | some _ =>
    match parseCategoriesArg categories with
    | none => [InitEvent.raisedValueError]
    | some _ => [InitEvent.fetchedCategoryMenu]

/-! ## Start requests (`FixPriceSpider.start_requests`) -/

/-- One initial probe request of `start_requests`: a POST for page 1 with
limit 1, carrying the category slug in `meta`. -/
structure StartRequest where
  categorySlug : String
deriving DecidableEq

/-- `FixPriceSpider.start_requests`: one probe request per configured
category slug, in order. -/
def startRequests (categoriesSlugs : List String) : List StartRequest :=
  categoriesSlugs.map (fun slug => { categorySlug := slug })

/-! ## City lister (`AvailableCitiesSpider.parse`) -/

/-- The rows written by `AvailableCitiesSpider.parse`: the `(name, id)`
pairs of the city-list response sorted by city name with Python's stable
`sorted` (key: the name, compared lexicographically by code point). -/
def cityTableRows (cities : List (String × Int)) : List (String × Int) :=
  cities.mergeSort (fun a b => decide (a.1 ≤ b.1))

/-! ## Concrete inputs used to instantiate the theorems -/

/-- A small category forest of the shape returned by the category-menu
endpoint. -/
def demoForest : List CategoryNode :=
  [CategoryNode.mk "toys" "Toys" [CategoryNode.mk "cars" "Cars" []],
   CategoryNode.mk "food" "Food" []]

/-- A complete item-detail payload with two variants, no stock, no special
price, an explicitly null `videoLink` and no `properties` key. -/
def samplePayload : JObj :=
  [("sku", JValue.str "SKU1"), ("url", JValue.str "item-1"),
   ("title", JValue.str "Item 1"), ("brand", JValue.null),
   ("variants", JValue.arr
     [JValue.obj [("price", JValue.num 50), ("count", JValue.num 0)],
      JValue.obj [("price", JValue.num 7), ("count", JValue.num 0)]]),
   ("specialPrice", JValue.null), ("videoLink", JValue.null),
   ("description", JValue.str "desc")]

/-- The record `parse` emits for `samplePayload`. -/
def sampleRecord : FixPriceParserItem :=
  { timestamp := 0, RPC := JValue.str "SKU1", urlFragment := JValue.str "item-1",
    title := JValue.str "Item 1", marketingTags := [], brand := none,
    sectionTitles := ["Toys"],
    priceData := { current := 50, original := 50, saleTag := none },
    stock := { inStock := false, count := 0 },
    assets := { mainImage := none, setImages := none, view360 := none,
                video := JValue.null },
    metadata := { description := JValue.str "desc", extra := [] },
    variants := 2 }

/-- A complete item-detail payload with a special price (45 against an
original of 50), positive variant counts, an extra variant attribute, a
brand, images and a non-empty properties list. -/
def specialPayload : JObj :=
  [("sku", JValue.str "SKU2"), ("url", JValue.str "item-2"),
   ("title", JValue.str "Item 2"),
   ("brand", JValue.obj [("title", JValue.str "BrandB")]),
   ("variants", JValue.arr
     [JValue.obj [("price", JValue.num 50), ("count", JValue.num 2),
                  ("barcode", JValue.str "123")],
      JValue.obj [("price", JValue.num 7), ("count", JValue.num 3)]]),
   ("specialPrice", JValue.obj [("price", JValue.num 45)]),
   ("images", JValue.arr [JValue.obj [("src", JValue.str "img1")]]),
   ("videoLink", JValue.str "vid"),
   ("description", JValue.str "desc2"),
   ("properties", JValue.arr
     [JValue.obj [("title", JValue.str "Страна"), ("value", JValue.str "Россия")]])]

/-- The record `parse` emits for `specialPayload`. -/
def specialRecord : FixPriceParserItem :=
  { timestamp := 7, RPC := JValue.str "SKU2", urlFragment := JValue.str "item-2",
    title := JValue.str "Item 2", marketingTags := [],
    brand := some (JValue.str "BrandB"),
    sectionTitles := ["Toys", "Cars"],
    priceData := { current := 45, original := 50, saleTag := some 10 },
    stock := { inStock := true, count := 5 },
    assets := { mainImage := some (JValue.str "img1"),
                setImages := some [JValue.str "img1"], view360 := none,
                video := JValue.str "vid" },
    metadata := { description := JValue.str "desc2",
                  extra := [("barcode", JValue.str "123"),
                            ("country_of_origin", JValue.str "Россия")] },
    variants := 2 }

/-- `samplePayload` with the `videoLink` key structurally absent. -/
def noVideoPayload : JObj :=
  [("sku", JValue.str "SKU1"), ("url", JValue.str "item-1"),
   ("title", JValue.str "Item 1"), ("brand", JValue.null),
   ("variants", JValue.arr
     [JValue.obj [("price", JValue.num 50), ("count", JValue.num 0)],
      JValue.obj [("price", JValue.num 7), ("count", JValue.num 0)]]),
   ("specialPrice", JValue.null),
   ("description", JValue.str "desc")]

/-- `samplePayload` with an extra `country_of_origin` attribute on the first
variant and no `properties` key at all. -/
def originKeyPayload : JObj :=
  [("sku", JValue.str "SKU1"), ("url", JValue.str "item-1"),
   ("title", JValue.str "Item 1"), ("brand", JValue.null),
   ("variants", JValue.arr
     [JValue.obj [("price", JValue.num 50), ("count", JValue.num 0),
                  ("country_of_origin", JValue.str "Neverland")],
      JValue.obj [("price", JValue.num 7), ("count", JValue.num 0)]]),
   ("specialPrice", JValue.null), ("videoLink", JValue.null),
   ("description", JValue.str "desc")]

/-- The record `parse` emits for `originKeyPayload`. -/
def originKeyRecord : FixPriceParserItem :=
  { timestamp := 0, RPC := JValue.str "SKU1", urlFragment := JValue.str "item-1",
    title := JValue.str "Item 1", marketingTags := [], brand := none,
    sectionTitles := ["Toys"],
    priceData := { current := 50, original := 50, saleTag := none },
    stock := { inStock := false, count := 0 },
    assets := { mainImage := none, setImages := none, view360 := none,
                video := JValue.null },
    metadata := { description := JValue.str "desc",
                  extra := [("country_of_origin", JValue.str "Neverland")] },
    variants := 2 }

unseal Rat.add Rat.sub Rat.mul Rat.inv in
/-- `parse` on `samplePayload` evaluates to `sampleRecord`. -/
theorem parse_samplePayload :
    parse demoForest "toys" 0 samplePayload = some sampleRecord := by
  rfl

unseal Rat.add Rat.sub Rat.mul Rat.inv in
/-- `parse` on `specialPayload` evaluates to `specialRecord`. -/
theorem parse_specialPayload :
    parse demoForest "toys/cars" 7 specialPayload = some specialRecord := by
  rfl

unseal Rat.add Rat.sub Rat.mul Rat.inv in
/-- `parse` on `originKeyPayload` evaluates to `originKeyRecord`. -/
theorem parse_originKeyPayload :
    parse demoForest "toys" 0 originKeyPayload = some originKeyRecord := by
  rfl

/-! ## Inversion lemmas for `parse` -/

/-- Successful parsing determines every component of the emitted record. -/
theorem parse_inv {f : List CategoryNode} {slug : String} {ts : Int} {o : JObj}
    {r : FixPriceParserItem} (h : parse f slug ts o = some r) :
    ∃ sku urlFragment titleVal brand vs v0 v0o priceData stock assets metadata,
      pyGet o "sku" = some sku ∧
      pyGet o "url" = some urlFragment ∧
      pyGet o "title" = some titleVal ∧
      parseBrand o = some brand ∧
      getVariantsList o = some vs ∧
      vs.head? = some v0 ∧
      jAsObj v0 = some v0o ∧
      parsePriceItem o v0o = some priceData ∧
      parseStockItem vs = some stock ∧
      parseAssetsItem o = some assets ∧
      parseMetadataItem o v0o = some metadata ∧
      r = { timestamp := ts, RPC := sku, urlFragment := urlFragment,
            title := titleVal, marketingTags := [], brand := brand,
            sectionTitles := buildCategoryHierarchy f slug,
            priceData := priceData, stock := stock, assets := assets,
            metadata := metadata, variants := vs.length } := by
  simp only [parse, Option.bind_eq_bind, Option.bind_eq_some, Option.pure_def,
    Option.some.injEq] at h
  obtain ⟨sku, hsku, urlFragment, hurl, titleVal, htitle, brand, hbrand, vs, hvs,
    v0, hv0, v0o, hv0o, priceData, hprice, stock, hstock, assets, hassets,
    metadata, hmetadata, hr⟩ := h
  exact ⟨sku, urlFragment, titleVal, brand, vs, v0, v0o, priceData, stock,
    assets, metadata, hsku, hurl, htitle, hbrand, hvs, hv0, hv0o, hprice,
    hstock, hassets, hmetadata, hr.symm⟩

/-- Successful price parsing determines the price record: the original is
the first variant's price, and the current price and sale tag depend on the
truthiness of the `specialPrice` value. -/
theorem parsePriceItem_inv {o v0o : JObj} {pd : PriceItem}
    (h : parsePriceItem o v0o = some pd) :
    ∃ pv q0 sv,
      pyGet v0o "price" = some pv ∧ pyFloat pv = some q0 ∧
      pyGet o "specialPrice" = some sv ∧
      ((jTruthy sv = false ∧
          pd = { current := q0, original := q0, saleTag := none }) ∨
       (jTruthy sv = true ∧ ∃ so spv q,
          jAsObj sv = some so ∧ pyGet so "price" = some spv ∧
          pyFloat spv = some q ∧
          pd = { current := q, original := q0,
                 saleTag := some ((q0 - q) / q0 * 100) })) := by
  simp only [parsePriceItem, Option.bind_eq_bind, Option.bind_eq_some,
    Option.pure_def, Option.some.injEq] at h
  obtain ⟨pv, hpv, q0, hq0, sv, hsv, hrest⟩ := h
  refine ⟨pv, q0, sv, hpv, hq0, hsv, ?_⟩
  split at hrest
  · simp only [Option.bind_eq_bind, Option.bind_eq_some, Option.some.injEq] at hrest
    obtain ⟨so, hso, spv, hspv, q, hq, hpd⟩ := hrest
    exact Or.inr ⟨by assumption, so, spv, q, hso, hspv, hq, hpd.symm⟩
  · simp only [Option.some.injEq] at hrest
    exact Or.inl ⟨by simp_all, hrest.symm⟩

/-- Successful stock parsing determines the stock record from the variant
counts. -/
theorem parseStockItem_inv {vs : List JValue} {st : StockItem}
    (h : parseStockItem vs = some st) :
    ∃ cs, variantCounts vs = some cs ∧
      st = { inStock := decide (0 < cs.sum), count := cs.sum } := by
  simp only [parseStockItem, Option.bind_eq_bind, Option.bind_eq_some,
    Option.pure_def, Option.some.injEq] at h
  obtain ⟨cs, hcs, hst⟩ := h
  exact ⟨cs, hcs, hst.symm⟩

/-- Successful asset parsing requires a `videoLink` key and copies its value
verbatim. -/
theorem parseAssetsItem_inv {o : JObj} {a : AssetsItem}
    (h : parseAssetsItem o = some a) :
    ∃ v, pyGet o "videoLink" = some v ∧ a.video = v := by
  simp only [parseAssetsItem, Option.bind_eq_bind, Option.bind_eq_some,
    Option.pure_def, Option.some.injEq] at h
  obtain ⟨ip, hip, v, hv, ha⟩ := h
  exact ⟨v, hv, by rw [← ha]⟩

/-- Successful metadata parsing determines the description and the dict of
dynamic assignments. -/
theorem parseMetadataItem_inv {o v0o : JObj} {md : MetadataItem}
    (h : parseMetadataItem o v0o = some md) :
    ∃ d, pyGet o "description" = some d ∧ md.description = d ∧
      ((jTruthyOpt (pyGet o "properties") = false ∧
          md.extra = mdAssignments v0o) ∨
       (jTruthyOpt (pyGet o "properties") = true ∧ ∃ pv pa p0 p0o ov,
          pyGet o "properties" = some pv ∧ jAsArr pv = some pa ∧
          pa.head? = some p0 ∧ jAsObj p0 = some p0o ∧
          pyGet p0o "value" = some ov ∧
          md.extra = dictSet (mdAssignments v0o) "country_of_origin" ov)) := by
  simp only [parseMetadataItem, Option.bind_eq_bind, Option.bind_eq_some,
    Option.some_bind, Option.pure_def, Option.some.injEq] at h
  obtain ⟨d, hd, hrest⟩ := h
  split at hrest
  · simp only [Option.bind_eq_bind, Option.bind_eq_some, Option.some_bind,
      Option.some.injEq] at hrest
    obtain ⟨pv, hpv, pa, hpa, p0, hp0, p0o, hp0o, ov, hov, hmd⟩ := hrest
    exact ⟨d, hd, by rw [← hmd],
      Or.inr ⟨by assumption, pv, pa, p0, p0o, ov, hpv, hpa, hp0, hp0o, hov,
        by rw [← hmd]⟩⟩
  · simp only [Option.some_bind, Option.some.injEq] at hrest
    exact ⟨d, hd, by rw [← hrest], Or.inl ⟨by simp_all, by rw [← hrest]⟩⟩

/-! ## Claim theorems -/

/-- The ceiling division of `get_pages_amount` in closed `Nat` form. -/
theorem pagesAmount_eq (n : ℕ) : pagesAmount n = (n + 98) / 99 := by
  have h99 : ((MAX_LIMIT_VALUE : ℕ) : ℚ) = 99 := by norm_num [MAX_LIMIT_VALUE]
  unfold pagesAmount
  rw [h99]
  apply le_antisymm
  · apply Nat.ceil_le.mpr
    rw [div_le_iff₀ (by norm_num : (0 : ℚ) < 99)]
    have h : n ≤ (n + 98) / 99 * 99 := by omega
    exact_mod_cast h
  · have h := Nat.le_ceil ((n : ℚ) / 99)
    rw [div_le_iff₀ (by norm_num : (0 : ℚ) < 99)] at h
    have h2 : n ≤ ⌈(n : ℚ) / 99⌉₊ * 99 := by exact_mod_cast h
    omega

/-- C1: for every numeric total count, the page counter computes
`pages = ceil(total_count / 99)` and emits exactly that many follow-up
requests, with page numbers 1 to `pages` inclusive, each carrying the
original category slug; in particular `total_count` of 0, 99, 100, 198, 199
yield 0, 1, 2, 2, 3 pages. -/
theorem C1_page_counter :
    (∀ n slug, (getPagesAmountRequests n slug).length = pagesAmount n) ∧
    (∀ n slug, (getPagesAmountRequests n slug).map PageRequest.pageNumber =
      (List.range (pagesAmount n)).map (fun i => i + 1)) ∧
    (∀ n slug r, r ∈ getPagesAmountRequests n slug →
      r.categorySlug = slug ∧ 1 ≤ r.pageNumber ∧ r.pageNumber ≤ pagesAmount n) ∧
    (∀ n slug k, 1 ≤ k → k ≤ pagesAmount n →
      (⟨k, slug⟩ : PageRequest) ∈ getPagesAmountRequests n slug) ∧
    pagesAmount 0 = 0 ∧ pagesAmount 99 = 1 ∧ pagesAmount 100 = 2 ∧
    pagesAmount 198 = 2 ∧ pagesAmount 199 = 3 := by
  refine ⟨fun n slug => by simp [getPagesAmountRequests],
    fun n slug => by simp [getPagesAmountRequests],
    fun n slug r hr => ?_, fun n slug k h1 h2 => ?_,
    by simp [pagesAmount_eq], by simp [pagesAmount_eq], by simp [pagesAmount_eq],
    by simp [pagesAmount_eq], by simp [pagesAmount_eq]⟩
  · simp only [getPagesAmountRequests, List.mem_map, List.mem_range] at hr
    obtain ⟨i, hi, rfl⟩ := hr
    exact ⟨rfl, Nat.succ_le_succ (Nat.zero_le i), hi⟩
  · simp only [getPagesAmountRequests, List.mem_map, List.mem_range]
    refine ⟨k - 1, by omega, ?_⟩
    have hk : k - 1 + 1 = k := by omega
    rw [hk]

/-- Witness for C1: a total count of 150 yields page 2 among the emitted
requests, carrying the category slug. -/
theorem C1_page_counter_witness :
    (⟨2, "toys"⟩ : PageRequest) ∈ getPagesAmountRequests 150 "toys" :=
  C1_page_counter.2.2.2.1 150 "toys" 2 (by decide) (by simp [pagesAmount_eq])

/-- C2: hierarchy resolution returns one title per matched segment; a
matching segment appends the matched node's title and descends into its
children, an unmatched segment is skipped without error, and the function
is a pure function of the slug path split on `"/"` over the fixed
forest. -/
theorem C2_hierarchy :
    (∀ cats segs, (hierWalk cats segs).length = hierMatchedCount cats segs) ∧
    (∀ f s, buildCategoryHierarchy f s = hierWalk f (strSplit '/' s)) ∧
    (∀ cats seg rest c, cats.find? (fun n => n.alias == seg) = some c →
      hierWalk cats (seg :: rest) = c.title :: hierWalk c.items rest) ∧
    (∀ cats seg rest, cats.find? (fun n => n.alias == seg) = none →
      hierWalk cats (seg :: rest) = hierWalk cats rest) := by
  refine ⟨fun cats segs => ?_, fun f s => rfl,
    fun cats seg rest c hc => by simp [hierWalk, hc],
    fun cats seg rest hc => by simp [hierWalk, hc]⟩
  induction segs generalizing cats with
  | nil => simp [hierWalk, hierMatchedCount]
  | cons seg rest ih =>
    cases hc : cats.find? (fun n => n.alias == seg) with
    | some c => simp [hierWalk, hierMatchedCount, hc, ih]
    | none => simp [hierWalk, hierMatchedCount, hc, ih]

/-- Witness for C2: on the demo forest, the segment `"toys"` matches and
appends `Toys`, while the segment `"nope"` matches nothing and is skipped. -/
theorem C2_hierarchy_witness :
    hierWalk demoForest ["toys", "cars"] =
      (CategoryNode.mk "toys" "Toys" [CategoryNode.mk "cars" "Cars" []]).title ::
        hierWalk (CategoryNode.mk "toys" "Toys" [CategoryNode.mk "cars" "Cars" []]).items
          ["cars"] ∧
    hierWalk demoForest ["nope"] = hierWalk demoForest [] :=
  ⟨C2_hierarchy.2.2.1 demoForest "toys" ["cars"]
      (CategoryNode.mk "toys" "Toys" [CategoryNode.mk "cars" "Cars" []]) rfl,
   C2_hierarchy.2.2.2 demoForest "nope" [] rfl⟩

/-- C3: for every successfully parsed item-detail payload, when the special
price value is falsy the current price equals the original price (the first
variant's price) and the sale tag is `None`; when it is truthy the current
price is the special price and the sale tag carries the percentage
`(original - current) / original * 100` (stated for `original > 0`). -/
theorem C3_price_sale_tag :
    ∀ f slug ts o r sv, parse f slug ts o = some r →
      pyGet o "specialPrice" = some sv →
      (∀ v0 v0o pv q0, (getVariantsList o).bind List.head? = some v0 →
        jAsObj v0 = some v0o → pyGet v0o "price" = some pv → pyFloat pv = some q0 →
        r.priceData.original = q0) ∧
      (jTruthy sv = false →
        r.priceData.current = r.priceData.original ∧ r.priceData.saleTag = none) ∧
      (∀ so spv q, jTruthy sv = true → jAsObj sv = some so →
        pyGet so "price" = some spv → pyFloat spv = some q →
        r.priceData.current = q ∧
        (0 < r.priceData.original →
          r.priceData.saleTag =
            some ((r.priceData.original - q) / r.priceData.original * 100))) := by
  intro f slug ts o r sv hp hsv
  obtain ⟨sku, urlF, titleV, brand, vs, v0, v0o, pd, st, va, md, hsku, hurl,
    htitle, hbrand, hvs, hv0, hv0o, hpd, hst, hva, hmd, hr⟩ := parse_inv hp
  subst hr
  obtain ⟨pv, q0, sv2, hpv, hq0, hsv2, hcase⟩ := parsePriceItem_inv hpd
  have hsveq : sv2 = sv := by
    have h := hsv2.symm.trans hsv
    injection h
  subst hsveq
  refine ⟨?_, ?_, ?_⟩
  · intro v0' v0o' pv' q0' hv0' hv0o' hpv' hq0'
    rw [hvs, Option.some_bind] at hv0'
    have hv0eq : v0 = v0' := by
      have h := hv0.symm.trans hv0'
      injection h
    subst hv0eq
    have hv0oeq : v0o = v0o' := by
      have h := hv0o.symm.trans hv0o'
      injection h
    subst hv0oeq
    have hpveq : pv = pv' := by
      have h := hpv.symm.trans hpv'
      injection h
    subst hpveq
    have hq0eq : q0 = q0' := by
      have h := hq0.symm.trans hq0'
      injection h
    subst hq0eq
    rcases hcase with ⟨_, rfl⟩ | ⟨_, so2, spv2, q2, _, _, _, rfl⟩ <;> rfl
  · intro ht
    rcases hcase with ⟨_, rfl⟩ | ⟨ht2, _⟩
    · exact ⟨rfl, rfl⟩
    · rw [ht2] at ht
      exact absurd ht (by simp)
  · intro so spv q ht hso hspv hq
    rcases hcase with ⟨ht2, _⟩ | ⟨_, so2, spv2, q2, hso2, hspv2, hq2, rfl⟩
    · rw [ht2] at ht
      exact absurd ht (by simp)
    · have hsoeq : so2 = so := by
        have h := hso2.symm.trans hso
        injection h
      subst hsoeq
      have hspveq : spv2 = spv := by
        have h := hspv2.symm.trans hspv
        injection h
      subst hspveq
      have hqeq : q2 = q := by
        have h := hq2.symm.trans hq
        injection h
      subst hqeq
      exact ⟨rfl, fun _ => rfl⟩

unseal Rat.add Rat.sub Rat.mul Rat.inv in
/-- Witness for C3: on `specialPayload` (original 50, special 45) the
emitted record has current price 45 and a sale tag of 10 percent; on
`samplePayload` (falsy special price) the current price equals the original
and the tag is `None`. -/
theorem C3_price_sale_tag_witness :
    specialRecord.priceData.current = 45 ∧
    specialRecord.priceData.saleTag =
      some ((specialRecord.priceData.original - 45) /
        specialRecord.priceData.original * 100) ∧
    sampleRecord.priceData.current = sampleRecord.priceData.original ∧
    sampleRecord.priceData.saleTag = none :=
  ⟨((C3_price_sale_tag demoForest "toys/cars" 7 specialPayload specialRecord
      (JValue.obj [("price", JValue.num 45)]) parse_specialPayload rfl).2.2
      [("price", JValue.num 45)] (JValue.num 45) 45 rfl rfl rfl rfl).1,
   ((C3_price_sale_tag demoForest "toys/cars" 7 specialPayload specialRecord
      (JValue.obj [("price", JValue.num 45)]) parse_specialPayload rfl).2.2
      [("price", JValue.num 45)] (JValue.num 45) 45 rfl rfl rfl rfl).2 (by decide),
   (C3_price_sale_tag demoForest "toys" 0 samplePayload sampleRecord
      JValue.null parse_samplePayload rfl).2.1 rfl⟩

/-- C4: for every successfully parsed item-detail payload, the emitted
record's stock count equals the sum of all variants' `count` fields and
`in_stock` holds exactly when that count is positive. -/
theorem C4_stock :
    ∀ f slug ts o r vs cs, parse f slug ts o = some r →
      getVariantsList o = some vs → variantCounts vs = some cs →
      r.stock.count = cs.sum ∧ (r.stock.inStock = true ↔ 0 < r.stock.count) := by
  intro f slug ts o r vs cs hp hvs hcs
  obtain ⟨sku, urlF, titleV, brand, vs2, v0, v0o, pd, st, va, md, hsku, hurl,
    htitle, hbrand, hvs2, hv0, hv0o, hpd, hst, hva, hmd, hr⟩ := parse_inv hp
  subst hr
  have hvseq : vs2 = vs := by
    have h := hvs2.symm.trans hvs
    injection h
  subst hvseq
  obtain ⟨cs2, hcs2, hsteq⟩ := parseStockItem_inv hst
  have hcseq : cs2 = cs := by
    have h := hcs2.symm.trans hcs
    injection h
  subst hcseq
  subst hsteq
  exact ⟨rfl, by simp⟩

unseal Rat.add Rat.sub Rat.mul Rat.inv in
/-- Witness for C4: on `samplePayload` (two variants, both counts zero) the
stock count is 0 and the record is out of stock; the general equivalence is
instantiated there. -/
theorem C4_stock_witness :
    sampleRecord.stock.count = ([(0 : ℚ), 0]).sum ∧
    (sampleRecord.stock.inStock = true ↔ 0 < sampleRecord.stock.count) :=
  C4_stock demoForest "toys" 0 samplePayload sampleRecord
    [JValue.obj [("price", JValue.num 50), ("count", JValue.num 0)],
     JValue.obj [("price", JValue.num 7), ("count", JValue.num 0)]]
    [0, 0] parse_samplePayload rfl rfl

/-- C5 counterexample: `noVideoPayload` differs from `samplePayload` only in
lacking the `videoLink` key; the spider drops it (`parse` is `none`) while
the payload with an explicit null yields a record whose video is null, so a
structurally absent key and an explicit null are not treated identically. -/
theorem C5_video_counterexample :
    pyGet noVideoPayload "videoLink" = none ∧
    parse demoForest "toys" 0 noVideoPayload = none ∧
    parse demoForest "toys" 0 samplePayload = some sampleRecord ∧
    sampleRecord.assets.video = JValue.null :=
  ⟨rfl, by rfl, parse_samplePayload, rfl⟩

/-- C5 (amended): a payload with an explicitly null `videoLink` normalizes
to a null video asset (the value is copied verbatim), while a payload with
the key structurally absent never yields a record — the item fails. -/
theorem C5_video :
    (∀ f slug ts o, pyGet o "videoLink" = none → parse f slug ts o = none) ∧
    (∀ f slug ts o r v, parse f slug ts o = some r →
      pyGet o "videoLink" = some v → r.assets.video = v) := by
  constructor
  · intro f slug ts o hnone
    cases hp : parse f slug ts o with
    | none => rfl
    | some r =>
      obtain ⟨sku, urlF, titleV, brand, vs, v0, v0o, pd, st, va, md, hsku,
        hurl, htitle, hbrand, hvs, hv0, hv0o, hpd, hst, hva, hmd, hr⟩ :=
        parse_inv hp
      obtain ⟨v, hv, _⟩ := parseAssetsItem_inv hva
      rw [hnone] at hv
      exact absurd hv (by simp)
  · intro f slug ts o r v hp hv
    obtain ⟨sku, urlF, titleV, brand, vs, v0, v0o, pd, st, va, md, hsku,
      hurl, htitle, hbrand, hvs, hv0, hv0o, hpd, hst, hva, hmd, hr⟩ :=
      parse_inv hp
    subst hr
    obtain ⟨v2, hv2, hvid⟩ := parseAssetsItem_inv hva
    have hveq : v2 = v := by
      have h := hv2.symm.trans hv
      injection h
    subst hveq
    exact hvid

unseal Rat.add Rat.sub Rat.mul Rat.inv in
/-- Witness for C5: instantiating the amended claim at `noVideoPayload`
(key absent, parse fails) and at `samplePayload` (explicit null, video
asset is null). -/
theorem C5_video_witness :
    parse demoForest "toys" 0 noVideoPayload = none ∧
    sampleRecord.assets.video = JValue.null :=
  ⟨C5_video.1 demoForest "toys" 0 noVideoPayload rfl,
   C5_video.2 demoForest "toys" 0 samplePayload sampleRecord JValue.null
     parse_samplePayload rfl⟩

/-- C8: every emitted record counts one entry per payload variant and hence
at least one; a payload whose variants list is empty never produces a
record. -/
theorem C8_variant_count :
    (∀ f slug ts o r, parse f slug ts o = some r →
      (∀ vs, getVariantsList o = some vs → r.variants = vs.length) ∧
      1 ≤ r.variants) ∧
    (∀ f slug ts o, getVariantsList o = some [] → parse f slug ts o = none) := by
  constructor
  · intro f slug ts o r hp
    obtain ⟨sku, urlF, titleV, brand, vs, v0, v0o, pd, st, va, md, hsku,
      hurl, htitle, hbrand, hvs, hv0, hv0o, hpd, hst, hva, hmd, hr⟩ :=
      parse_inv hp
    subst hr
    constructor
    · intro vs' hvs'
      have hvseq : vs = vs' := by
        have h := hvs.symm.trans hvs'
        injection h
      subst hvseq
      rfl
    · cases vs with
      | nil => exact absurd hv0 (by simp)
      | cons a l => exact Nat.succ_le_succ (Nat.zero_le l.length)
  · intro f slug ts o hvs
    cases hp : parse f slug ts o with
    | none => rfl
    | some r =>
      obtain ⟨sku, urlF, titleV, brand, vs, v0, v0o, pd, st, va, md, hsku,
        hurl, htitle, hbrand, hvs2, hv0, hv0o, hpd, hst, hva, hmd, hr⟩ :=
        parse_inv hp
      have hvseq : vs = [] := by
        have h := hvs2.symm.trans hvs
        injection h
      subst hvseq
      exact absurd hv0 (by simp)

unseal Rat.add Rat.sub Rat.mul Rat.inv in
/-- Witness for C8: `samplePayload` has two variants and its record reports
`variants = 2 ≥ 1`; a payload with an empty variants list fails. -/
theorem C8_variant_count_witness :
    sampleRecord.variants =
      ([JValue.obj [("price", JValue.num 50), ("count", JValue.num 0)],
        JValue.obj [("price", JValue.num 7), ("count", JValue.num 0)]] :
          List JValue).length ∧
    1 ≤ sampleRecord.variants ∧
    parse demoForest "toys" 0
      [("sku", JValue.str "S"), ("url", JValue.str "u"),
       ("title", JValue.str "t"), ("brand", JValue.null),
       ("variants", JValue.arr []), ("specialPrice", JValue.null),
       ("videoLink", JValue.null), ("description", JValue.str "d")] = none :=
  ⟨(C8_variant_count.1 demoForest "toys" 0 samplePayload sampleRecord
      parse_samplePayload).1
      [JValue.obj [("price", JValue.num 50), ("count", JValue.num 0)],
       JValue.obj [("price", JValue.num 7), ("count", JValue.num 0)]] rfl,
   (C8_variant_count.1 demoForest "toys" 0 samplePayload sampleRecord
      parse_samplePayload).2,
   C8_variant_count.2 demoForest "toys" 0
     [("sku", JValue.str "S"), ("url", JValue.str "u"),
      ("title", JValue.str "t"), ("brand", JValue.null),
      ("variants", JValue.arr []), ("specialPrice", JValue.null),
      ("videoLink", JValue.null), ("description", JValue.str "d")] rfl⟩

/-- Overwriting an existing key leaves the key sequence unchanged. -/
theorem keys_map_set (k : String) (v : JValue) (o : JObj) :
    (o.map (fun kv => if kv.1 == k then (k, v) else kv)).map Prod.fst =
      o.map Prod.fst := by
  rw [List.map_map]
  apply List.map_congr_left
  intro kv _
  by_cases hkv : kv.1 == k
  · simp only [Function.comp_apply, if_pos hkv]
    exact (eq_of_beq hkv).symm
  · simp only [Function.comp_apply, if_neg hkv]

/-- Membership in the keys after a dict assignment. -/
theorem mem_keys_dictSet (o : JObj) (k : String) (v : JValue) (k' : String) :
    k' ∈ (dictSet o k v).map Prod.fst ↔ (k' ∈ o.map Prod.fst ∨ k' = k) := by
  unfold dictSet
  by_cases h : o.any (fun kv => kv.1 == k) = true
  · rw [if_pos h, keys_map_set]
    have hk : k ∈ o.map Prod.fst := by
      rw [List.any_eq_true] at h
      obtain ⟨kv, hkv, hbeq⟩ := h
      have hm := List.mem_map_of_mem Prod.fst hkv
      rwa [eq_of_beq hbeq] at hm
    constructor
    · exact Or.inl
    · rintro (hm | rfl)
      · exact hm
      · exact hk
  · rw [if_neg h, List.map_append]
    simp

/-- A dict assignment keeps the keys duplicate-free. -/
theorem nodup_keys_dictSet (o : JObj) (k : String) (v : JValue)
    (h : (o.map Prod.fst).Nodup) : ((dictSet o k v).map Prod.fst).Nodup := by
  unfold dictSet
  by_cases ha : o.any (fun kv => kv.1 == k) = true
  · rw [if_pos ha, keys_map_set]
    exact h
  · rw [if_neg ha, List.map_append]
    have hk : k ∉ o.map Prod.fst := by
      intro hmem
      rw [List.mem_map] at hmem
      obtain ⟨kv, hkv, hfst⟩ := hmem
      apply ha
      rw [List.any_eq_true]
      refine ⟨kv, hkv, ?_⟩
      rw [hfst]
      exact beq_self_eq_true k
    refine List.Nodup.append h (List.nodup_singleton k) ?_
    intro a ha1 ha2
    rw [List.map_singleton, List.mem_singleton] at ha2
    subst ha2
    exact hk ha1

/-- When the key was already present, `find?` returns the overwritten
binding. -/
theorem find?_map_set (k : String) (v : JValue) :
    ∀ o : JObj, o.any (fun kv => kv.1 == k) = true →
      (o.map (fun kv => if kv.1 == k then (k, v) else kv)).find?
        (fun kv => kv.1 == k) = some (k, v) := by
  intro o
  induction o with
  | nil => intro h; simp at h
  | cons kv rest ih =>
    intro h
    by_cases hkv : kv.1 == k
    · simp only [List.map_cons, if_pos hkv]
      rw [List.find?_cons_of_pos]
      simp
    · have hkvf : (kv.1 == k) = false := by simpa using hkv
      simp only [List.map_cons, if_neg hkv]
      rw [List.find?_cons]
      simp only [hkvf]
      apply ih
      simp only [List.any_cons, Bool.or_eq_true] at h
      rcases h with h | h
      · exact absurd h hkv
      · exact h

/-- When the key was absent, `find?` reaches the appended binding. -/
theorem find?_append_set (k : String) (v : JValue) :
    ∀ o : JObj, o.any (fun kv => kv.1 == k) = false →
      (o ++ [(k, v)]).find? (fun kv => kv.1 == k) = some (k, v) := by
  intro o
  induction o with
  | nil =>
    intro _
    rw [List.nil_append, List.find?_cons_of_pos]
    simp
  | cons kv rest ih =>
    intro h
    simp only [List.any_cons, Bool.or_eq_false_iff] at h
    rw [List.cons_append, List.find?_cons_of_neg _ (by simp [h.1])]
    exact ih h.2

/-- Looking up the assigned key after a dict assignment yields the assigned
value. -/
theorem pyGet_dictSet_self (o : JObj) (k : String) (v : JValue) :
    pyGet (dictSet o k v) k = some v := by
  cases ha : o.any (fun kv => kv.1 == k) with
  | true =>
    unfold pyGet dictSet
    rw [if_pos ha, find?_map_set k v o ha]
    rfl
  | false =>
    unfold pyGet dictSet
    rw [if_neg (by simp [ha]), find?_append_set k v o ha]
    rfl

/-- Key membership across the fold of dict assignments. -/
theorem mem_keys_assign :
    ∀ (ps acc : JObj) (k' : String),
      k' ∈ ((ps.foldl (fun a kv => dictSet a kv.1 kv.2) acc).map Prod.fst) ↔
        (k' ∈ acc.map Prod.fst ∨ k' ∈ ps.map Prod.fst) := by
  intro ps
  induction ps with
  | nil => intro acc k'; simp
  | cons p rest ih =>
    intro acc k'
    simp only [List.foldl_cons]
    rw [ih, mem_keys_dictSet]
    simp only [List.map_cons, List.mem_cons]
    tauto

/-- Folding dict assignments keeps the keys duplicate-free. -/
theorem nodup_keys_assign :
    ∀ (ps acc : JObj), (acc.map Prod.fst).Nodup →
      ((ps.foldl (fun a kv => dictSet a kv.1 kv.2) acc).map Prod.fst).Nodup := by
  intro ps
  induction ps with
  | nil => intro acc h; simpa
  | cons p rest ih =>
    intro acc h
    simp only [List.foldl_cons]
    exact ih _ (nodup_keys_dictSet _ _ _ h)

/-- The variant-derived metadata dict binds exactly the first variant's
non-excluded keys. -/
theorem mem_keys_mdAssignments (v0o : JObj) (k : String) :
    k ∈ (mdAssignments v0o).map Prod.fst ↔
      k ∈ (v0o.filter (fun kv => !(excludedMetadataKeys.contains kv.1))).map
        Prod.fst := by
  unfold mdAssignments
  rw [mem_keys_assign]
  simp

/-- The variant-derived metadata dict has duplicate-free keys. -/
theorem nodup_keys_mdAssignments (v0o : JObj) :
    ((mdAssignments v0o).map Prod.fst).Nodup :=
  nodup_keys_assign _ [] (by simp)

unseal Rat.add Rat.sub Rat.mul Rat.inv in
/-- C6 counterexample: on `originKeyPayload` the first variant itself
carries a `country_of_origin` attribute and the payload has no properties
list at all, yet the emitted metadata contains the key `country_of_origin` —
so the key is not present only when a non-empty properties list exists. -/
theorem C6_metadata_counterexample :
    parse demoForest "toys" 0 originKeyPayload = some originKeyRecord ∧
    pyGet originKeyPayload "properties" = none ∧
    "country_of_origin" ∈ originKeyRecord.metadata.extra.map Prod.fst :=
  ⟨parse_originKeyPayload, rfl, by decide⟩

/-- C6 (amended): for every successfully parsed payload the metadata's
description is the payload's description; a dynamic key is present iff it
is a non-excluded key of the first variant or it is `country_of_origin`
with a truthy properties list; no dynamic key appears twice (dict
assignment overwrites in place); and with a truthy properties list the
`country_of_origin` binding holds the first properties entry's value. -/
theorem C6_metadata :
    ∀ f slug ts o r v0 v0o d, parse f slug ts o = some r →
      (getVariantsList o).bind List.head? = some v0 →
      jAsObj v0 = some v0o →
      pyGet o "description" = some d →
      r.metadata.description = d ∧
      (∀ k, k ∈ r.metadata.extra.map Prod.fst ↔
        (k ∈ (v0o.filter (fun kv => !(excludedMetadataKeys.contains kv.1))).map
            Prod.fst ∨
         (k = "country_of_origin" ∧ jTruthyOpt (pyGet o "properties") = true))) ∧
      (r.metadata.extra.map Prod.fst).Nodup ∧
      (∀ pv pa p0 p0o ov, pyGet o "properties" = some pv → jAsArr pv = some pa →
        pa.head? = some p0 → jAsObj p0 = some p0o → pyGet p0o "value" = some ov →
        jTruthy pv = true →
        pyGet r.metadata.extra "country_of_origin" = some ov) ∧
      ("country_of_origin" ∈ r.metadata.extra.map Prod.fst ↔
        (jTruthyOpt (pyGet o "properties") = true ∨
         "country_of_origin" ∈
           (v0o.filter (fun kv => !(excludedMetadataKeys.contains kv.1))).map
             Prod.fst)) := by
  intro f slug ts o r v0 v0o d hp hv0 hv0o hd
  obtain ⟨sku, urlF, titleV, brand, vs, v02, v0o2, pd, st, va, md, hsku, hurl,
    htitle, hbrand, hvs, hv02, hv0o2, hpd, hst, hva, hmd, hr⟩ := parse_inv hp
  subst hr
  rw [hvs, Option.some_bind] at hv0
  have hv0eq : v02 = v0 := by
    have h := hv02.symm.trans hv0
    injection h
  subst hv0eq
  have hv0oeq : v0o = v0o2 := by
    have h := hv0o.symm.trans hv0o2
    injection h
  subst hv0oeq
  obtain ⟨d2, hd2, hdesc, hcase⟩ := parseMetadataItem_inv hmd
  have hdeq : d2 = d := by
    have h := hd2.symm.trans hd
    injection h
  subst hdeq
  have hmem : ∀ k, k ∈ md.extra.map Prod.fst ↔
      (k ∈ (v0o.filter (fun kv => !(excludedMetadataKeys.contains kv.1))).map
          Prod.fst ∨
       (k = "country_of_origin" ∧ jTruthyOpt (pyGet o "properties") = true)) := by
    intro k
    rcases hcase with ⟨ht, hextra⟩ | ⟨ht, pv, pa, p0, p0o, ov, hpv, hpa, hp0,
      hp0o, hov, hextra⟩
    · rw [hextra, mem_keys_mdAssignments, ht]
      simp
    · rw [hextra, mem_keys_dictSet, mem_keys_mdAssignments, ht]
      simp
  refine ⟨hdesc, hmem, ?_, ?_, ?_⟩
  · rcases hcase with ⟨ht, hextra⟩ | ⟨ht, pv, pa, p0, p0o, ov, hpv, hpa, hp0,
      hp0o, hov, hextra⟩
    · rw [hextra]
      exact nodup_keys_mdAssignments v0o
    · rw [hextra]
      exact nodup_keys_dictSet _ _ _ (nodup_keys_mdAssignments v0o)
  · intro pv pa p0 p0o ov hpv hpa hp0 hp0o hov htr
    rcases hcase with ⟨ht, hextra⟩ | ⟨ht, pv2, pa2, p02, p0o2, ov2, hpv2, hpa2,
      hp02, hp0o2, hov2, hextra⟩
    · rw [hpv] at ht
      simp [jTruthyOpt, htr] at ht
    · have hpveq : pv2 = pv := by
        have h := hpv2.symm.trans hpv
        injection h
      subst hpveq
      have hpaeq : pa2 = pa := by
        have h := hpa2.symm.trans hpa
        injection h
      subst hpaeq
      have hp0eq : p02 = p0 := by
        have h := hp02.symm.trans hp0
        injection h
      subst hp0eq
      have hp0oeq : p0o2 = p0o := by
        have h := hp0o2.symm.trans hp0o
        injection h
      subst hp0oeq
      have hoveq : ov2 = ov := by
        have h := hov2.symm.trans hov
        injection h
      subst hoveq
      rw [hextra]
      exact pyGet_dictSet_self _ _ _
  · rw [hmem "country_of_origin"]
    tauto

unseal Rat.add Rat.sub Rat.mul Rat.inv in
/-- Witness for C6: instantiated on `specialPayload`, whose first variant
carries the extra key `barcode` and whose properties list is non-empty:
`barcode` is among the dynamic keys, the keys are duplicate-free,
`country_of_origin` is present and bound to the properties value. -/
theorem C6_metadata_witness :
    specialRecord.metadata.description = JValue.str "desc2" ∧
    ("barcode" ∈ specialRecord.metadata.extra.map Prod.fst ↔
      ("barcode" ∈ (([("price", JValue.num 50), ("count", JValue.num 2),
          ("barcode", JValue.str "123")] : JObj).filter
          (fun kv => !(excludedMetadataKeys.contains kv.1))).map Prod.fst ∨
       ("barcode" = "country_of_origin" ∧
         jTruthyOpt (pyGet specialPayload "properties") = true))) ∧
    (specialRecord.metadata.extra.map Prod.fst).Nodup ∧
    pyGet specialRecord.metadata.extra "country_of_origin" =
      some (JValue.str "Россия") ∧
    ("country_of_origin" ∈ specialRecord.metadata.extra.map Prod.fst ↔
      (jTruthyOpt (pyGet specialPayload "properties") = true ∨
       "country_of_origin" ∈
         (([("price", JValue.num 50), ("count", JValue.num 2),
            ("barcode", JValue.str "123")] : JObj).filter
           (fun kv => !(excludedMetadataKeys.contains kv.1))).map Prod.fst)) :=
  let base := C6_metadata demoForest "toys/cars" 7 specialPayload specialRecord
    (JValue.obj [("price", JValue.num 50), ("count", JValue.num 2),
      ("barcode", JValue.str "123")])
    [("price", JValue.num 50), ("count", JValue.num 2),
     ("barcode", JValue.str "123")]
    (JValue.str "desc2") parse_specialPayload rfl rfl rfl
  ⟨base.1, base.2.1 "barcode", base.2.2.1,
   base.2.2.2.1
     (JValue.arr [JValue.obj [("title", JValue.str "Страна"),
       ("value", JValue.str "Россия")]])
     [JValue.obj [("title", JValue.str "Страна"),
       ("value", JValue.str "Россия")]]
     (JValue.obj [("title", JValue.str "Страна"),
       ("value", JValue.str "Россия")])
     [("title", JValue.str "Страна"), ("value", JValue.str "Россия")]
     (JValue.str "Россия") rfl rfl rfl rfl rfl rfl,
   base.2.2.2.2⟩

/-- C7: a malformed city identifier or categories argument makes
construction raise `ValueError` before the category-menu fetch is issued;
with valid arguments the constructor reaches the fetch. -/
theorem C7_malformed_args :
    (∀ city cats, (parseCityArg city = none ∨ parseCategoriesArg cats = none) →
      initEvents city cats = [InitEvent.raisedValueError] ∧
      InitEvent.fetchedCategoryMenu ∉ initEvents city cats) ∧
    (∀ city cats ci sl, parseCityArg city = some ci →
      parseCategoriesArg cats = some sl →
      initEvents city cats = [InitEvent.fetchedCategoryMenu]) := by
  constructor
  · intro city cats h
    have he : initEvents city cats = [InitEvent.raisedValueError] := by
      rcases h with h | h
      · simp [initEvents, h]
      · cases hc : parseCityArg city <;> simp [initEvents, h, hc]
    exact ⟨he, by rw [he]; simp⟩
  · intro city cats ci sl hci hsl
    simp [initEvents, hci, hsl]

/-- Witness for C7: a non-integer city identifier string and a categories
argument of the wrong type each raise `ValueError` with no fetch. -/
theorem C7_malformed_args_witness :
    (initEvents (CityArg.ofStr "abc") (CategoriesArg.ofStr "toys") =
        [InitEvent.raisedValueError] ∧
      InitEvent.fetchedCategoryMenu ∉
        initEvents (CityArg.ofStr "abc") (CategoriesArg.ofStr "toys")) ∧
    (initEvents (CityArg.ofInt 5) CategoriesArg.other =
        [InitEvent.raisedValueError] ∧
      InitEvent.fetchedCategoryMenu ∉
        initEvents (CityArg.ofInt 5) CategoriesArg.other) :=
  ⟨C7_malformed_args.1 (CityArg.ofStr "abc") (CategoriesArg.ofStr "toys")
      (Or.inl (by decide)),
   C7_malformed_args.1 (CityArg.ofInt 5) CategoriesArg.other
      (Or.inr (by decide))⟩

/-- C9: the city lister's rows are a permutation of the response entries,
sorted ascending by city name; entries with equal names keep their input
order (stability); the three-city example sorts as Arkhangelsk, Kazan,
Moscow. -/
theorem C9_city_rows :
    (∀ cities, (cityTableRows cities).Perm cities) ∧
    (∀ cities, (cityTableRows cities).Pairwise (fun a b => a.1 ≤ b.1)) ∧
    (∀ cities a b, List.Sublist [a, b] cities → a.1 = b.1 →
      List.Sublist [a, b] (cityTableRows cities)) ∧
    cityTableRows [("Moscow", 2), ("Kazan", 5), ("Arkhangelsk", 1)] =
      [("Arkhangelsk", 1), ("Kazan", 5), ("Moscow", 2)] := by
  have htrans : ∀ a b c : String × Int, decide (a.1 ≤ b.1) → decide (b.1 ≤ c.1) →
      decide (a.1 ≤ c.1) := by
    intro a b c hab hbc
    simp only [decide_eq_true_eq] at hab hbc ⊢
    exact le_trans hab hbc
  have htotal : ∀ a b : String × Int, decide (a.1 ≤ b.1) || decide (b.1 ≤ a.1) := by
    intro a b
    simpa using le_total a.1 b.1
  refine ⟨fun cities => List.mergeSort_perm cities _, fun cities => ?_,
    fun cities a b hsub heq => ?_, ?_⟩
  · exact (List.sorted_mergeSort htrans htotal cities).imp
      (fun hab => by simpa using hab)
  · exact List.pair_sublist_mergeSort htrans htotal (by simp [heq]) hsub
  · simp +decide [cityTableRows, List.mergeSort, List.splitInTwo, List.splitAt,
      List.splitAt.go, List.merge, String.le_iff_toList_le]

/-- Witness for C9: two entries with the same city name keep their original
relative order in the sorted rows. -/
theorem C9_city_rows_witness :
    List.Sublist [("A", 1), ("A", 2)] (cityTableRows [("A", 1), ("A", 2)]) :=
  C9_city_rows.2.2.1 [("A", 1), ("A", 2)] ("A", 1) ("A", 2)
    (List.Sublist.refl _) rfl

/-- Splitting never yields an empty list of segments. -/
theorem splitOnChar_ne_nil (sep : Char) (cs : List Char) :
    splitOnChar sep cs ≠ [] := by
  cases cs with
  | nil => simp [splitOnChar]
  | cons c rest =>
    by_cases hc : c = sep
    · simp [splitOnChar, hc]
    · simp only [splitOnChar, hc, if_false]
      cases h : splitOnChar sep rest <;> simp

/-- Prepending a character to the first segment commutes with joining. -/
theorem joinWith_cons_head (sep c : Char) (g : List Char) (gs : List (List Char)) :
    joinWith sep ((c :: g) :: gs) = c :: joinWith sep (g :: gs) := by
  cases gs <;> rfl

/-- Joining with a leading empty segment emits the separator first. -/
theorem joinWith_nil_head (sep : Char) (g : List Char) (gs : List (List Char)) :
    joinWith sep ([] :: g :: gs) = sep :: joinWith sep (g :: gs) := rfl

/-- Joining the comma split with commas restores the original characters:
the split loses nothing. -/
theorem joinWith_splitOnChar (sep : Char) (cs : List Char) :
    joinWith sep (splitOnChar sep cs) = cs := by
  induction cs with
  | nil => rfl
  | cons c rest ih =>
    by_cases hc : c = sep
    · subst hc
      simp only [splitOnChar, if_pos rfl]
      cases h : splitOnChar c rest with
      | nil => exact absurd h (splitOnChar_ne_nil c rest)
      | cons g gs =>
        rw [h] at ih
        show joinWith c ([] :: g :: gs) = c :: rest
        rw [joinWith_nil_head, ih]
    · simp only [splitOnChar, hc, if_false]
      cases h : splitOnChar sep rest with
      | nil => exact absurd h (splitOnChar_ne_nil sep rest)
      | cons g gs =>
        rw [h] at ih
        rw [joinWith_cons_head, ih]

/-- No segment produced by the split contains the separator. -/
theorem splitOnChar_not_mem (sep : Char) (cs : List Char) :
    ∀ g ∈ splitOnChar sep cs, sep ∉ g := by
  induction cs with
  | nil =>
    intro g hg
    simp [splitOnChar] at hg
    simp [hg]
  | cons c rest ih =>
    intro g hg
    by_cases hc : c = sep
    · subst hc
      have hsplit : splitOnChar c (c :: rest) = [] :: splitOnChar c rest := by
        simp [splitOnChar]
      rw [hsplit] at hg
      rcases List.mem_cons.mp hg with heq | hg2
      · subst heq
        simp
      · exact ih g hg2
    · simp only [splitOnChar, hc, if_false] at hg
      cases h : splitOnChar sep rest with
      | nil => exact absurd h (splitOnChar_ne_nil sep rest)
      | cons g0 gs =>
        rw [h] at hg
        simp only [List.mem_cons] at hg
        rcases hg with rfl | hg
        · intro hmem
          rcases List.mem_cons.mp hmem with rfl | hmem
          · exact hc rfl
          · exact ih g0 (by rw [h]; exact List.mem_cons_self g0 gs) hmem
        · exact ih g (by rw [h]; exact List.mem_cons_of_mem g0 hg)

/-- All-comma (or empty) character lists split into only empty segments. -/
theorem splitOnChar_all_sep (sep : Char) (cs : List Char)
    (h : ∀ c ∈ cs, c = sep) :
    (splitOnChar sep cs).filter (fun g => !g.isEmpty) = [] := by
  induction cs with
  | nil => rfl
  | cons c rest ih =>
    have hc : c = sep := h c (List.mem_cons_self c rest)
    subst hc
    have hsplit : splitOnChar c (c :: rest) = [] :: splitOnChar c rest := by
      simp [splitOnChar]
    rw [hsplit, List.filter_cons]
    simp only [List.isEmpty_nil, Bool.not_true]
    rw [if_neg (by simp)]
    exact ih (fun c2 hc2 => h c2 (List.mem_cons_of_mem _ hc2))

/-- C10: a single comma-delimited categories string keeps exactly the
non-empty segments of the comma split (the split itself losing nothing);
an empty or all-comma string yields an empty slug tuple, and the start
stage then issues zero initial requests instead of failing. -/
theorem C10_comma_split :
    (∀ s, parseCategoriesArg (CategoriesArg.ofStr s) =
      some (categoriesSlugsOfString s)) ∧
    (∀ s x, x ∈ categoriesSlugsOfString s ↔
      (x.data ∈ splitOnChar ',' s.data ∧ x.data ≠ [])) ∧
    (∀ cs, joinWith ',' (splitOnChar ',' cs) = cs) ∧
    (∀ s, (∀ c ∈ s.data, c = ',') → categoriesSlugsOfString s = []) ∧
    (∀ slugs, (startRequests slugs).length = slugs.length) ∧
    (∀ s, (∀ c ∈ s.data, c = ',') →
      startRequests (categoriesSlugsOfString s) = []) := by
  have hempty : ∀ s, (∀ c ∈ s.data, c = ',') → categoriesSlugsOfString s = [] := by
    intro s h
    unfold categoriesSlugsOfString
    rw [splitOnChar_all_sep ',' s.data h]
    rfl
  refine ⟨fun s => rfl, fun s x => ?_, joinWith_splitOnChar ',', hempty,
    fun slugs => by simp [startRequests], fun s h => by rw [hempty s h]; rfl⟩
  unfold categoriesSlugsOfString
  rw [List.mem_map]
  constructor
  · rintro ⟨g, hg, rfl⟩
    rw [List.mem_filter] at hg
    refine ⟨hg.1, ?_⟩
    have h2 := hg.2
    simp only [Bool.not_eq_eq_eq_not, Bool.not_true] at h2
    simpa [List.isEmpty_eq_false] using h2
  · rintro ⟨hmem, hne⟩
    exact ⟨x.data, List.mem_filter.mpr ⟨hmem, by simpa [List.isEmpty_eq_false]⟩, rfl⟩

/-- Witness for C10: the all-comma string yields no slugs and no start
requests. -/
theorem C10_comma_split_witness :
    categoriesSlugsOfString ",,," = [] ∧
    startRequests (categoriesSlugsOfString ",,,") = [] :=
  ⟨C10_comma_split.2.2.2.1 ",,," (by decide),
   C10_comma_split.2.2.2.2.2 ",,," (by decide)⟩

end FixPriceParser
